import Mathlib

/-!
Verification of the ZeroVisibilityVisionSystem image-restoration pipeline
(src/image_processing.py and the dispatch logic of src/app.py).

The pipeline operates on decoded OpenCV images: `h × w` grids of 3
interleaved uint8 channels (BGR).  uint8 samples are modelled as `ℤ`,
float32 stages as exact `ℚ` arithmetic, and the gamma power law over `ℝ`.
Calls into external libraries (cv2 colour-space conversions, histogram
equalisation, CLAHE, Gaussian/bilateral/non-local-means filters, the
ximgproc guided filter, `cv2.resize` interpolation, and numpy's
`argpartition` selection) are parameters of the embedded functions: the
repository's own arithmetic and control flow is modelled exactly, and the
theorems hold for every behaviour of those external primitives (constrained
only by their documented contracts, e.g. dimension preservation, stated as
hypotheses where needed).
-/

namespace ZeroVis

/-- A decoded colour image: height `h`, width `w`, and uint8 samples
(modelled as `ℤ`) addressed by row, column and channel (BGR order).
Operations never read out-of-range coordinates of their true inputs, so the
total function representation is harmless. -/
structure Img where
  h : ℕ
  w : ℕ
  pix : ℕ → ℕ → Fin 3 → ℤ

/-- A single-channel uint8 image (grayscale guides, quantised transmission
maps). -/
structure GImg where
  h : ℕ
  w : ℕ
  pix : ℕ → ℕ → ℤ

/-- `cvRound`: round to nearest, ties to even — the rounding OpenCV's
`saturate_cast` applies to floating-point results. -/
def rnd (q : ℚ) : ℤ :=
  if q - ⌊q⌋ < 1/2 then ⌊q⌋
  else if (1:ℚ)/2 < q - ⌊q⌋ then ⌊q⌋ + 1
  else if 2 ∣ ⌊q⌋ then ⌊q⌋ else ⌊q⌋ + 1

/-- `saturate_cast<uchar>` applied to a floating-point value: round to
nearest, then clamp into `[0, 255]`. -/
def satU8 (q : ℚ) : ℤ :=
  max 0 (min 255 (rnd q))

/-- Truncation toward zero, the C float-to-integer conversion. -/
def truncZ (q : ℚ) : ℤ :=
  if 0 ≤ q then ⌊q⌋ else -⌊-q⌋

/-- numpy `.astype('uint8')` on a float value: truncate toward zero, reduce
modulo 256. -/
def toU8 (q : ℚ) : ℤ :=
  truncZ q % 256

/-- `np.clip(·, lo, hi)`. -/
def clip (lo hi q : ℚ) : ℚ :=
  min hi (max lo q)

/-- OpenCV `COLOR_BGR2GRAY` on one pixel: the documented fixed-point
luminance `(1868·B + 9617·G + 4899·R + 2^13) >> 14` (coefficients are
`0.114, 0.587, 0.299` in Q14). -/
def grayPix (px : Fin 3 → ℤ) : ℤ :=
  (1868 * px 0 + 9617 * px 1 + 4899 * px 2 + 8192) / 16384

/-- `cv2.cvtColor(·, cv2.COLOR_BGR2GRAY)`. -/
def cvtGray (img : Img) : GImg :=
  ⟨img.h, img.w, fun y x => grayPix (img.pix y x)⟩

/-- `.mean()` of the grayscale conversion of an image
(`cv2.cvtColor(·, COLOR_BGR2GRAY).mean()` in `enhance_low_light`). -/
def grayMean (img : Img) : ℚ :=
  (∑ y in Finset.range img.h, ∑ x in Finset.range img.w,
    ((cvtGray img).pix y x : ℚ)) / (img.h * img.w)

/-- The 256-entry lookup table built by `apply_gamma_correction`:
`table[i] = uint8((i / 255.0) ** (1/gamma) * 255)` — the float power, scaled,
then truncated to uint8 (`.astype("uint8")`, i.e. the floor for these
non-negative values). -/
noncomputable def gammaTable (g : ℝ) (i : Fin 256) : ℤ :=
  ⌊(((i : ℕ) : ℝ) / 255) ^ g⁻¹ * 255⌋

/-- `apply_gamma_correction(image, gamma)`: `cv2.LUT` applies the single
256-entry table to every channel of every pixel, indexing by the uint8
sample value. -/
noncomputable def apply_gamma_correction (g : ℝ) (img : Img) : Img :=
  ⟨img.h, img.w, fun y x c =>
    gammaTable g ⟨(img.pix y x c).toNat % 256, Nat.mod_lt _ (by norm_num)⟩⟩

/-- `sharpen_image(image, strength)`:
`cv2.addWeighted(image, 1+strength, gaussianBlur(image), -strength, 0)`,
computed per pixel per channel in floating point and saturate-cast back to
uint8.  `gauss` is the external `cv2.GaussianBlur(·, (0,0), 3)`. -/
def sharpen_image (s : ℚ) (gauss : Img → Img) (img : Img) : Img :=
  ⟨img.h, img.w, fun y x c =>
    satU8 ((1 + s) * (img.pix y x c : ℚ) + (-s) * ((gauss img).pix y x c : ℚ))⟩

/-- `image.astype('float32') / 255.0`: the normalised float view of the
input used throughout `remove_fog`. -/
def imgF (img : Img) (y x : ℕ) (c : Fin 3) : ℚ :=
  (img.pix y x c : ℚ) / 255

/-- `cv2.min(cv2.min(img[:,:,0], img[:,:,1]), img[:,:,2])`: the per-pixel
minimum across the three channels. -/
def minChannel (img : Img) (y x : ℕ) : ℚ :=
  min (min (imgF img y x 0) (imgF img y x 1)) (imgF img y x 2)

/-- `cv2.erode(f, np.ones((15,15)))` at one pixel: the minimum of `f` over
the 15×15 window centred at `(y, x)`, intersected with the image (erosion's
default border value never affects the minimum).  The fold starts from the
centre value, which is itself part of the window. -/
def erodeAt (h w : ℕ) (f : ℕ → ℕ → ℚ) (y x : ℕ) : ℚ :=
  ((List.range h).filter (fun r => r ≤ y + 7 ∧ y ≤ r + 7)).foldl
    (fun acc r =>
      ((List.range w).filter (fun c => c ≤ x + 7 ∧ x ≤ c + 7)).foldl
        (fun acc2 c => min acc2 (f r c)) acc)
    (f y x)

/-- The dark channel of `remove_fog`: channel-wise minimum eroded by the
15×15 all-ones kernel. -/
def darkChannel (img : Img) (y x : ℕ) : ℚ :=
  erodeAt img.h img.w (minChannel img) y x

/-- `num_bright = int(max(num_pixels * 0.001, 1))`: the size of the
brightest-dark-channel pixel set used for the atmospheric light. -/
def numBright (img : Img) : ℕ :=
  max (img.h * img.w / 1000) 1

/-- A valid outcome of
`np.argpartition(flat_dark, -num_bright)[-num_bright:]`: `S` holds
`num_bright` distinct in-bounds pixel coordinates whose dark-channel values
are all ≥ every dark-channel value outside `S`. `argpartition` guarantees no
more than this (ties at the threshold are broken arbitrarily), so `S` enters
`remove_fog` as a parameter constrained by this contract. -/
def ValidSelection (img : Img) (S : Finset (ℕ × ℕ)) : Prop :=
  S.card = numBright img ∧
  (∀ p ∈ S, p.1 < img.h ∧ p.2 < img.w) ∧
  ∀ p ∈ S, ∀ y, y < img.h → ∀ x, x < img.w → (y, x) ∉ S →
    darkChannel img y x ≤ darkChannel img p.1 p.2

/-- `A = img.reshape(-1,3)[indices].mean(axis=0)`: the per-channel mean of
the original colours of the selected pixels. -/
def atmosLight (img : Img) (S : Finset (ℕ × ℕ)) (c : Fin 3) : ℚ :=
  (∑ p in S, imgF img p.1 p.2 c) / numBright img

/-- `A.max()` over the three channels. -/
def atmosMax (img : Img) (S : Finset (ℕ × ℕ)) : ℚ :=
  max (atmosLight img S 0) (max (atmosLight img S 1) (atmosLight img S 2))

/-- `transmission = 1 - omega * dark / (A.max() + 1e-6)` with
`omega = 0.95`. -/
def transmissionRaw (img : Img) (S : Finset (ℕ × ℕ)) (y x : ℕ) : ℚ :=
  1 - (19/20) * darkChannel img y x / (atmosMax img S + 1/1000000)

/-- `cv2.cvtColor((img * 255).astype('uint8'), cv2.COLOR_BGR2GRAY)`: the
guide image handed to the guided filter. -/
def grayGuide (img : Img) : GImg :=
  ⟨img.h, img.w, fun y x => grayPix (fun c => toU8 (imgF img y x c * 255))⟩

/-- `(transmission * 255).astype('uint8')`: the quantised raw transmission
handed to the guided filter as its source. -/
def transSrc (img : Img) (S : Finset (ℕ × ℕ)) : GImg :=
  ⟨img.h, img.w, fun y x => toU8 (transmissionRaw img S y x * 255)⟩

/-- The refined, clamped transmission map:
`np.clip(guidedFilter(...).astype('float32') / 255.0, 0.2, 1.0)`.
`gf` is the external `cv2.ximgproc.guidedFilter(guide, src, 40, 1e-3)`. -/
def transmissionMap (gf : GImg → GImg → GImg) (img : Img) (S : Finset (ℕ × ℕ))
    (y x : ℕ) : ℚ :=
  clip (1/5) 1 (((gf (grayGuide img) (transSrc img S)).pix y x : ℚ) / 255)

/-- Radiance recovery `J = np.clip((img - A) / t + A, 0, 1)`. -/
def radiance (gf : GImg → GImg → GImg) (img : Img) (S : Finset (ℕ × ℕ))
    (y x : ℕ) (c : Fin 3) : ℚ :=
  clip 0 1 ((imgF img y x c - atmosLight img S c) / transmissionMap gf img S y x
    + atmosLight img S c)

/-- `dehazed = (J * 255).astype('uint8')`. -/
def dehazedU8 (gf : GImg → GImg → GImg) (img : Img) (S : Finset (ℕ × ℕ)) : Img :=
  ⟨img.h, img.w, fun y x c => toU8 (radiance gf img S y x c * 255)⟩

/-- `remove_fog(image)`.  `wb` is the external `simple_white_balance`
composition (cv2 LAB round trip with `equalizeHist` on L); `gauss` the
Gaussian blur inside `sharpen_image`; `gf` the guided filter; `S` the
argpartition selection. -/
def remove_fog (wb gauss : Img → Img) (gf : GImg → GImg → GImg)
    (S : Finset (ℕ × ℕ)) (img : Img) : Img :=
  sharpen_image (1/2) gauss (wb (dehazedU8 gf img S))

/-- `remove_smoke_noise(image)`: white balance, bilateral filter,
non-local-means denoising (both external cv2 calls), then
`sharpen_image(·, 0.3)`. -/
def remove_smoke_noise (wb bilateral nlm gauss : Img → Img) (img : Img) : Img :=
  sharpen_image (3/10) gauss (nlm (bilateral (wb img)))

/-- The adaptive gamma of `enhance_low_light`: 1.8 below mean brightness 60,
1.5 below 90, else 1.2. -/
noncomputable def selectGamma (m : ℚ) : ℝ :=
  if m < 60 then 1.8 else if m < 90 then 1.5 else 1.2

/-- The resize guard of `enhance_low_light`: images whose larger dimension
exceeds 1500 are resized to
`(int(w * 1500/max(h,w)), int(h * 1500/max(h,w)))` (dsize is
`(width, height)`).  `cv2.resize` rejects an empty target size, so a zero
target dimension is a runtime fault, modelled as `none`.  `rz` supplies the
external interpolation producing the resized samples at the target
dimensions. -/
def lowLightResize (rz : Img → ℕ → ℕ → (ℕ → ℕ → Fin 3 → ℤ)) (img : Img) :
    Option Img :=
  if max img.h img.w ≤ 1500 then some img
  else
    let m := max img.h img.w
    let nh := img.h * 1500 / m
    let nw := img.w * 1500 / m
    if nh = 0 ∨ nw = 0 then none else some ⟨nh, nw, rz img nh nw⟩

/-- The body of `enhance_low_light` after the resize guard: white balance,
LAB + CLAHE (`clahe` is the external CLAHE block, clip limit 3.5, 8×8
tiles), adaptive gamma from the mean grayscale brightness, then
`sharpen_image(·, 0.4)`. -/
noncomputable def lowLightCore (wb clahe gauss : Img → Img) (img0 : Img) : Img :=
  let enhanced := clahe (wb img0)
  sharpen_image (2/5) gauss
    (apply_gamma_correction (selectGamma (grayMean enhanced)) enhanced)

/-- `enhance_low_light(image)`: resize guard then the enhancement body. -/
noncomputable def enhance_low_light (rz : Img → ℕ → ℕ → (ℕ → ℕ → Fin 3 → ℤ))
    (wb clahe gauss : Img → Img) (img : Img) : Option Img :=
  (lowLightResize rz img).map (lowLightCore wb clahe gauss)

/-- The mode dispatch of `app.py`'s `enhance` route: `low_light`, `fog` and
`smoke` route to the three enhancers; any other mode falls back to the
input image itself (`processed = image`). -/
noncomputable def process (rz : Img → ℕ → ℕ → (ℕ → ℕ → Fin 3 → ℤ))
    (wb clahe gauss bilateral nlm : Img → Img) (gf : GImg → GImg → GImg)
    (S : Finset (ℕ × ℕ)) (mode : String) (img : Img) : Option Img :=
  if mode = "low_light" then enhance_low_light rz wb clahe gauss img
  else if mode = "fog" then some (remove_fog wb gauss gf S img)
  else if mode = "smoke" then some (remove_smoke_noise wb bilateral nlm gauss img)
  else some img

/-- The documented cv2 contract that a filtering primitive returns an image
of its input's size. -/
def preservesDims (f : Img → Img) : Prop :=
  ∀ i, (f i).h = i.h ∧ (f i).w = i.w

/-! ### Concrete instances of the external primitives, for evaluation -/

/-- A dimension- and value-preserving stand-in for an external cv2 filter. -/
def idPrim : Img → Img := id

/-- A guided filter stand-in returning its source unchanged. -/
def idGF : GImg → GImg → GImg := fun _ s => s

/-- A resize interpolation stand-in reading the original samples. -/
def rzPrim : Img → ℕ → ℕ → (ℕ → ℕ → Fin 3 → ℤ) := fun img _ _ => img.pix

/-- A constant image. -/
def constImg (h w : ℕ) (v : ℤ) : Img := ⟨h, w, fun _ _ _ => v⟩

lemma preservesDims_idPrim : preservesDims idPrim := fun _ => ⟨rfl, rfl⟩

/-! ### Elementary facts about the numeric helpers -/

lemma satU8_range (q : ℚ) : 0 ≤ satU8 q ∧ satU8 q ≤ 255 :=
  ⟨le_max_left _ _, max_le (by norm_num) (min_le_left _ _)⟩

lemma rnd_intCast (v : ℤ) : rnd (v : ℚ) = v := by
  have h : ((v : ℚ) - ⌊(v : ℚ)⌋ : ℚ) = 0 := by simp
  unfold rnd
  rw [h]
  norm_num

lemma satU8_intCast (v : ℤ) (h0 : 0 ≤ v) (h255 : v ≤ 255) : satU8 (v : ℚ) = v := by
  unfold satU8
  rw [rnd_intCast, min_eq_right h255, max_eq_right h0]

lemma clip_range (lo hi q : ℚ) (h : lo ≤ hi) :
    lo ≤ clip lo hi q ∧ clip lo hi q ≤ hi :=
  ⟨le_min h (le_max_left _ _), min_le_left _ _⟩

lemma foldl_shrink_le {β : Type} (g : ℚ → β → ℚ) (hg : ∀ a b, g a b ≤ a) :
    ∀ (l : List β) (a : ℚ), l.foldl g a ≤ a := by
  intro l
  induction l with
  | nil => intro a; exact le_rfl
  | cons b t ih =>
      intro a
      exact le_trans (ih (g a b)) (hg a b)

lemma erodeAt_le_center (h w : ℕ) (f : ℕ → ℕ → ℚ) (y x : ℕ) :
    erodeAt h w f y x ≤ f y x := by
  unfold erodeAt
  exact foldl_shrink_le _
    (fun a r => foldl_shrink_le _ (fun a2 c => min_le_left _ _) _ a) _ _

lemma minChannel_le (img : Img) (y x : ℕ) (c : Fin 3) :
    minChannel img y x ≤ imgF img y x c := by
  fin_cases c
  · exact le_trans (min_le_left _ _) (min_le_left _ _)
  · exact le_trans (min_le_left _ _) (min_le_right _ _)
  · exact min_le_right _ _

lemma atmosLight_nonneg (img : Img) (S : Finset (ℕ × ℕ))
    (hin : ∀ y x : ℕ, ∀ c : Fin 3, 0 ≤ img.pix y x c) (c : Fin 3) :
    0 ≤ atmosLight img S c := by
  unfold atmosLight
  apply div_nonneg
  · exact Finset.sum_nonneg fun p _ => by
      unfold imgF
      have := hin p.1 p.2 c
      apply div_nonneg
      · exact_mod_cast this
      · norm_num
  · positivity

lemma gammaTable_mem (g : ℝ) (hg : 0 < g) (i : Fin 256) :
    0 ≤ gammaTable g i ∧ gammaTable g i ≤ 255 := by
  have hbase0 : (0:ℝ) ≤ ((i : ℕ) : ℝ) / 255 := by positivity
  have hbase1 : ((i : ℕ) : ℝ) / 255 ≤ 1 := by
    rw [div_le_one (by norm_num)]
    have := i.isLt
    exact_mod_cast Nat.le_of_lt_succ this
  have hval0 : (0:ℝ) ≤ (((i : ℕ) : ℝ) / 255) ^ g⁻¹ * 255 := by
    have := Real.rpow_nonneg hbase0 g⁻¹
    nlinarith
  have hval1 : (((i : ℕ) : ℝ) / 255) ^ g⁻¹ * 255 ≤ 255 := by
    have h1 : (((i : ℕ) : ℝ) / 255) ^ g⁻¹ ≤ 1 :=
      Real.rpow_le_one hbase0 hbase1 (inv_nonneg.2 hg.le)
    nlinarith
  constructor
  · exact Int.le_floor.2 (by exact_mod_cast hval0)
  · have := Int.floor_le_floor hval1
    simpa using this

/-! ### Claims -/

/-- C8: in `remove_fog`, the dark-channel value computed at every pixel is
less than or equal to the minimum of that pixel's three colour-channel
values (the 15×15 erosion window always contains the pixel itself). -/
theorem dark_channel_le_pixel_min (img : Img) (y x : ℕ) :
    darkChannel img y x ≤ minChannel img y x ∧
    ∀ c : Fin 3, darkChannel img y x ≤ imgF img y x c :=
  ⟨erodeAt_le_center _ _ _ _ _,
   fun c => le_trans (erodeAt_le_center _ _ _ _ _) (minChannel_le img y x c)⟩

/-- C7: `sharpen_image` with strength 0 returns the input buffer unchanged —
in fact exactly: the blur enters `addWeighted` with weight `-0`, so every
uint8 sample is reproduced bit for bit and the dimensions are kept. -/
theorem sharpen_zero_identity (gauss : Img → Img) (img : Img) (y x : ℕ) (c : Fin 3)
    (h0 : 0 ≤ img.pix y x c) (h255 : img.pix y x c ≤ 255) :
    (sharpen_image 0 gauss img).pix y x c = img.pix y x c ∧
    (sharpen_image 0 gauss img).h = img.h ∧ (sharpen_image 0 gauss img).w = img.w := by
  refine ⟨?_, rfl, rfl⟩
  show satU8 ((1 + 0) * (img.pix y x c : ℚ) + (-0) * ((gauss img).pix y x c : ℚ)) =
    img.pix y x c
  have harith : (1 + (0:ℚ)) * (img.pix y x c : ℚ) +
      (-(0:ℚ)) * ((gauss img).pix y x c : ℚ) = (img.pix y x c : ℚ) := by ring
  rw [harith, satU8_intCast _ h0 h255]

theorem sharpen_zero_identity_witness :
    (sharpen_image 0 idPrim (constImg 2 2 7)).pix 0 0 0 = (constImg 2 2 7).pix 0 0 0 :=
  (sharpen_zero_identity idPrim (constImg 2 2 7) 0 0 0 (by decide) (by decide)).1

/-- C9: any mode string outside `{"low_light", "fog", "smoke"}` makes the
dispatcher of `app.py` return the input buffer itself unchanged (the
`else: processed = image` fallback), not an error. -/
theorem unknown_mode_passthrough (rz : Img → ℕ → ℕ → (ℕ → ℕ → Fin 3 → ℤ))
    (wb clahe gauss bilateral nlm : Img → Img) (gf : GImg → GImg → GImg)
    (S : Finset (ℕ × ℕ)) (mode : String) (img : Img)
    (h1 : mode ≠ "low_light") (h2 : mode ≠ "fog") (h3 : mode ≠ "smoke") :
    process rz wb clahe gauss bilateral nlm gf S mode img = some img := by
  unfold process
  rw [if_neg h1, if_neg h2, if_neg h3]

theorem unknown_mode_passthrough_witness :
    process rzPrim idPrim idPrim idPrim idPrim idPrim idGF ∅ "unknown_mode"
      (constImg 2 2 0) = some (constImg 2 2 0) :=
  unknown_mode_passthrough rzPrim idPrim idPrim idPrim idPrim idPrim idGF ∅
    "unknown_mode" (constImg 2 2 0) (by decide) (by decide) (by decide)

/-- C10: when `max(H, W) > 1500` the resize targets are the truncated
`(int(W*1500/max), int(H*1500/max))`; if either truncates to 0 (extreme
aspect ratio), `cv2.resize` rejects the empty size and `enhance_low_light`
faults instead of returning a buffer. -/
theorem resize_zero_dimension_fault (rz : Img → ℕ → ℕ → (ℕ → ℕ → Fin 3 → ℤ))
    (wb clahe gauss : Img → Img) (img : Img)
    (hbig : 1500 < max img.h img.w)
    (hzero : img.h * 1500 / max img.h img.w = 0 ∨
      img.w * 1500 / max img.h img.w = 0) :
    enhance_low_light rz wb clahe gauss img = none := by
  unfold enhance_low_light lowLightResize
  rw [if_neg (not_le.2 hbig)]
  dsimp only
  rw [if_pos hzero]
  rfl

theorem resize_zero_dimension_fault_witness :
    enhance_low_light rzPrim idPrim idPrim idPrim (constImg 1 1600 7) = none :=
  resize_zero_dimension_fault rzPrim idPrim idPrim idPrim (constImg 1 1600 7)
    (by decide) (Or.inl (by decide))

/-- C6: for every fixed `gamma > 0` the LUT of `apply_gamma_correction` is
monotonically non-decreasing in the input intensity, and at `gamma = 1` it
is exactly the identity on `[0, 255]`. -/
theorem gamma_monotone_identity (g : ℝ) (hg : 0 < g) (i j : Fin 256) (hij : i ≤ j) :
    gammaTable g i ≤ gammaTable g j ∧ gammaTable 1 i = ((i : ℕ) : ℤ) := by
  constructor
  · apply Int.floor_le_floor
    apply mul_le_mul_of_nonneg_right _ (by norm_num : (0:ℝ) ≤ 255)
    apply Real.rpow_le_rpow (by positivity) _ (inv_nonneg.2 hg.le)
    have hc : ((i : ℕ) : ℝ) ≤ ((j : ℕ) : ℝ) := by exact_mod_cast hij
    linarith
  · unfold gammaTable
    rw [inv_one, Real.rpow_one, div_mul_cancel₀ _ (by norm_num : (255:ℝ) ≠ 0)]
    exact Int.floor_natCast _

theorem gamma_monotone_identity_witness :
    gammaTable 2 3 ≤ gammaTable 2 5 ∧ gammaTable 1 3 = 3 :=
  gamma_monotone_identity 2 (by norm_num) 3 5 (by decide)

lemma gammaVal_bounds (g : ℝ) (hg : 0 < g) (i : Fin 256) :
    0 ≤ (((i : ℕ) : ℝ) / 255) ^ g⁻¹ * 255 ∧
    (((i : ℕ) : ℝ) / 255) ^ g⁻¹ * 255 ≤ 255 := by
  have hbase0 : (0:ℝ) ≤ ((i : ℕ) : ℝ) / 255 := by positivity
  have hbase1 : ((i : ℕ) : ℝ) / 255 ≤ 1 := by
    rw [div_le_one (by norm_num)]
    exact_mod_cast Nat.le_of_lt_succ i.isLt
  constructor
  · have := Real.rpow_nonneg hbase0 g⁻¹
    nlinarith
  · have := Real.rpow_le_one hbase0 hbase1 (inv_nonneg.2 hg.le)
    nlinarith

/-- C5 (amended): for `gamma > 0` the 256-entry table satisfies
`table[i] = ⌊clamp(255 · (i/255)^(1/gamma), 0, 255)⌋` — the clamped power
law additionally truncated to an integer by the `.astype("uint8")`
conversion — and `cv2.LUT` applies this one table independently to every
channel of every pixel. -/
theorem gamma_lut_quantised (g : ℝ) (hg : 0 < g) (i : Fin 256) (img : Img)
    (y x : ℕ) (c : Fin 3) :
    gammaTable g i = ⌊min 255 (max 0 ((((i : ℕ) : ℝ) / 255) ^ g⁻¹ * 255))⌋ ∧
    (apply_gamma_correction g img).pix y x c =
      gammaTable g ⟨(img.pix y x c).toNat % 256, Nat.mod_lt _ (by norm_num)⟩ := by
  refine ⟨?_, rfl⟩
  unfold gammaTable
  rw [max_eq_right (gammaVal_bounds g hg i).1, min_eq_right (gammaVal_bounds g hg i).2]

theorem gamma_lut_quantised_witness :
    gammaTable 2 ⟨16, by norm_num⟩ =
      ⌊min 255 (max 0 ((((16 : ℕ) : ℝ) / 255) ^ (2:ℝ)⁻¹ * 255))⌋ :=
  (gamma_lut_quantised 2 (by norm_num) ⟨16, by norm_num⟩ (constImg 1 1 0) 0 0 0).1

/-- C5, as literally stated, is false: the table entry is an integer while
the unquantised clamped power law is not.  At `gamma = 1/2` and intensity
16 the claimed value is `255·(16/255)² = 256/255`, but the stored entry is
its truncation 1. -/
theorem gamma_lut_unquantised_false :
    ¬ ((gammaTable (1/2 : ℝ) ⟨16, by norm_num⟩ : ℝ) =
      min 255 (max 0 ((((16 : ℕ) : ℝ) / 255) ^ ((1/2 : ℝ))⁻¹ * 255))) := by
  have hexp : ((1/2 : ℝ))⁻¹ = ((2 : ℕ) : ℝ) := by norm_num
  have hpow : (((16 : ℕ) : ℝ) / 255) ^ ((1/2 : ℝ))⁻¹ = ((16 : ℝ) / 255) ^ (2 : ℕ) := by
    rw [hexp, Real.rpow_natCast]
    norm_num
  have hval : (((16 : ℕ) : ℝ) / 255) ^ ((1/2 : ℝ))⁻¹ * 255 = 256 / 255 := by
    rw [hpow]
    norm_num
  have htab : gammaTable (1/2 : ℝ) ⟨16, by norm_num⟩ = 1 := by
    unfold gammaTable
    rw [show ((⟨16, by norm_num⟩ : Fin 256) : ℕ) = (16 : ℕ) from rfl, hval]
    rw [Int.floor_eq_iff]
    norm_num
  rw [htab, hval]
  norm_num

/-- C3: in `enhance_low_light`, with `m` the mean grayscale brightness of
the white-balanced, CLAHE-equalised intermediate, the gamma applied by the
subsequent `apply_gamma_correction` call is exactly 1.8 when `m < 60`, 1.5
when `60 ≤ m < 90`, and 1.2 when `m ≥ 90`. -/
theorem adaptive_gamma_policy (wb clahe gauss : Img → Img) (img0 : Img) :
    (grayMean (clahe (wb img0)) < 60 →
      selectGamma (grayMean (clahe (wb img0))) = 1.8) ∧
    (60 ≤ grayMean (clahe (wb img0)) → grayMean (clahe (wb img0)) < 90 →
      selectGamma (grayMean (clahe (wb img0))) = 1.5) ∧
    (90 ≤ grayMean (clahe (wb img0)) →
      selectGamma (grayMean (clahe (wb img0))) = 1.2) ∧
    lowLightCore wb clahe gauss img0 =
      sharpen_image (2/5) gauss
        (apply_gamma_correction (selectGamma (grayMean (clahe (wb img0))))
          (clahe (wb img0))) := by
  refine ⟨?_, ?_, ?_, rfl⟩
  · intro h
    unfold selectGamma
    rw [if_pos h]
  · intro h1 h2
    unfold selectGamma
    rw [if_neg (not_lt.2 h1), if_pos h2]
  · intro h
    unfold selectGamma
    rw [if_neg (not_lt.2 (by linarith)), if_neg (not_lt.2 (by linarith))]

/-- C2: every enhancer's output samples lie in `[0, 255]` (each pipeline
ends in `sharpen_image`, whose `addWeighted` saturate-casts every value);
the clamped float intermediates of `remove_fog` lie in their declared
ranges (`transmission ∈ [0.2, 1]` and radiance `J ∈ [0, 1]` after their
`np.clip`); the transmission denominator carries the `1e-6` guard and is
strictly positive for uint8 input, and the gamma LUT entries stay in
`[0, 255]` for every `gamma > 0` — in this exact-arithmetic model no value
is NaN or Inf, every division's denominator being proven non-zero. -/
theorem value_ranges (rz : Img → ℕ → ℕ → (ℕ → ℕ → Fin 3 → ℤ))
    (wb clahe gauss bilateral nlm : Img → Img) (gf : GImg → GImg → GImg)
    (S : Finset (ℕ × ℕ)) (img : Img) (y x : ℕ) (c : Fin 3) (i : Fin 256) :
    (0 ≤ (remove_fog wb gauss gf S img).pix y x c ∧
      (remove_fog wb gauss gf S img).pix y x c ≤ 255) ∧
    (0 ≤ (remove_smoke_noise wb bilateral nlm gauss img).pix y x c ∧
      (remove_smoke_noise wb bilateral nlm gauss img).pix y x c ≤ 255) ∧
    (∀ out, enhance_low_light rz wb clahe gauss img = some out →
      0 ≤ out.pix y x c ∧ out.pix y x c ≤ 255) ∧
    (1/5 ≤ transmissionMap gf img S y x ∧ transmissionMap gf img S y x ≤ 1) ∧
    (0 ≤ radiance gf img S y x c ∧ radiance gf img S y x c ≤ 1) ∧
    ((∀ y2 x2 : ℕ, ∀ c2 : Fin 3, 0 ≤ img.pix y2 x2 c2) →
      0 < atmosMax img S + 1/1000000) ∧
    (∀ g : ℝ, 0 < g → 0 ≤ gammaTable g i ∧ gammaTable g i ≤ 255) := by
  refine ⟨satU8_range _, satU8_range _, ?_, clip_range _ _ _ (by norm_num),
    clip_range _ _ _ (by norm_num), ?_, fun g hg => gammaTable_mem g hg i⟩
  · intro out hout
    rcases hres : lowLightResize rz img with _ | i0
    · rw [enhance_low_light, hres] at hout
      simp at hout
    · rw [enhance_low_light, hres] at hout
      simp only [Option.map_some', Option.some_inj] at hout
      rw [← hout]
      exact satU8_range _
  · intro hin
    have h0 := atmosLight_nonneg img S hin 0
    have hmax : atmosLight img S 0 ≤ atmosMax img S := le_max_left _ _
    linarith

/-- C4: the atmospheric light of `remove_fog` is the per-channel mean of
the original colours of exactly the brightest-dark-channel
`max(⌊0.001·n⌋, 1)` pixels: any selection satisfying `argpartition`'s
contract coincides with the (unique) strictly-brightest top set `T`
whenever the boundary is tie-free, and the computed `A` is the mean over
`T`. -/
theorem atmospheric_light_exact_top (img : Img) (S T : Finset (ℕ × ℕ))
    (hS : ValidSelection img S)
    (hTcard : T.card = numBright img)
    (hTin : ∀ p ∈ T, p.1 < img.h ∧ p.2 < img.w)
    (hTtop : ∀ p ∈ T, ∀ y, y < img.h → ∀ x, x < img.w → (y, x) ∉ T →
      darkChannel img y x < darkChannel img p.1 p.2) :
    S = T ∧ ∀ c : Fin 3,
      atmosLight img S c = (∑ p in T, imgF img p.1 p.2 c) / numBright img := by
  obtain ⟨hScard, hSin, hStop⟩ := hS
  have hST : S = T := by
    apply Finset.eq_of_subset_of_card_le
    · intro p hpS
      by_contra hpT
      have hTS : ¬ T ⊆ S := by
        intro hsub
        have heq : T = S :=
          Finset.eq_of_subset_of_card_le hsub (le_of_eq (hScard.trans hTcard.symm))
        exact hpT (heq ▸ hpS)
      obtain ⟨q, hqT, hqS⟩ := Finset.not_subset.1 hTS
      have hle : darkChannel img q.1 q.2 ≤ darkChannel img p.1 p.2 :=
        hStop p hpS q.1 (hTin q hqT).1 q.2 (hTin q hqT).2 (by simpa using hqS)
      have hlt : darkChannel img p.1 p.2 < darkChannel img q.1 q.2 :=
        hTtop q hqT p.1 (hSin p hpS).1 p.2 (hSin p hpS).2 (by simpa using hpT)
      linarith
    · exact le_of_eq (hTcard.trans hScard.symm)
  subst hST
  exact ⟨rfl, fun c => rfl⟩

theorem atmospheric_light_exact_top_witness :
    atmosLight (constImg 1 1 7) {((0:ℕ), (0:ℕ))} 0 =
      (∑ p in ({((0:ℕ), (0:ℕ))} : Finset (ℕ × ℕ)), imgF (constImg 1 1 7) p.1 p.2 0) /
        numBright (constImg 1 1 7) :=
  (atmospheric_light_exact_top (constImg 1 1 7) {((0:ℕ), (0:ℕ))} {((0:ℕ), (0:ℕ))}
    (by unfold ValidSelection; refine ⟨by decide, by decide, ?_⟩; decide)
    (by decide) (by decide) (by decide)).2 0

lemma lowLightCore_dims (wb clahe gauss : Img → Img) (hwb : preservesDims wb)
    (hcl : preservesDims clahe) (i0 : Img) :
    (lowLightCore wb clahe gauss i0).h = i0.h ∧
    (lowLightCore wb clahe gauss i0).w = i0.w :=
  ⟨(hcl (wb i0)).1.trans (hwb i0).1, (hcl (wb i0)).2.trans (hwb i0).2⟩

lemma resize_target_max (h w : ℕ) (hgt : 1500 < max h w) :
    max (h * 1500 / max h w) (w * 1500 / max h w) = 1500 := by
  rcases le_total h w with hc | hc
  · rw [max_eq_right hc] at hgt ⊢
    have hw : 0 < w := by omega
    have h2 : w * 1500 / w = 1500 := Nat.mul_div_cancel_left 1500 hw
    have h3 : h * 1500 / w ≤ 1500 := by
      calc h * 1500 / w ≤ w * 1500 / w :=
            Nat.div_le_div_right (Nat.mul_le_mul_right 1500 hc)
        _ = 1500 := h2
    rw [h2]
    exact max_eq_right h3
  · rw [max_eq_left hc] at hgt ⊢
    have hh : 0 < h := by omega
    have h2 : h * 1500 / h = 1500 := Nat.mul_div_cancel_left 1500 hh
    have h3 : w * 1500 / h ≤ 1500 := by
      calc w * 1500 / h ≤ h * 1500 / h :=
            Nat.div_le_div_right (Nat.mul_le_mul_right 1500 hc)
        _ = 1500 := h2
    rw [h2]
    exact max_eq_left h3

/-- C1 (amended): `remove_fog` and `remove_smoke_noise` keep the input's
dimensions exactly; `enhance_low_light` keeps them when
`max(H, W) ≤ 1500`; when `max(H, W) > 1500` it targets the truncated
dimensions `(⌊H·1500/max⌋, ⌊W·1500/max⌋)` — so the larger output dimension
is exactly 1500 and the aspect ratio is preserved only up to the
truncation — and it returns a buffer (with those dimensions) exactly when
neither target truncates to 0, faulting otherwise. -/
theorem output_dimensions (rz : Img → ℕ → ℕ → (ℕ → ℕ → Fin 3 → ℤ))
    (wb clahe gauss bilateral nlm : Img → Img) (gf : GImg → GImg → GImg)
    (S : Finset (ℕ × ℕ)) (img : Img)
    (hwb : preservesDims wb) (hcl : preservesDims clahe)
    (hbil : preservesDims bilateral) (hnlm : preservesDims nlm) :
    ((remove_fog wb gauss gf S img).h = img.h ∧
      (remove_fog wb gauss gf S img).w = img.w) ∧
    ((remove_smoke_noise wb bilateral nlm gauss img).h = img.h ∧
      (remove_smoke_noise wb bilateral nlm gauss img).w = img.w) ∧
    (max img.h img.w ≤ 1500 →
      ∀ out, enhance_low_light rz wb clahe gauss img = some out →
        out.h = img.h ∧ out.w = img.w) ∧
    (1500 < max img.h img.w →
      (enhance_low_light rz wb clahe gauss img = none ↔
        img.h * 1500 / max img.h img.w = 0 ∨
        img.w * 1500 / max img.h img.w = 0) ∧
      ∀ out, enhance_low_light rz wb clahe gauss img = some out →
        out.h = img.h * 1500 / max img.h img.w ∧
        out.w = img.w * 1500 / max img.h img.w ∧
        max out.h out.w = 1500) := by
  refine ⟨⟨(hwb _).1, (hwb _).2⟩,
    ⟨(hnlm _).1.trans ((hbil _).1.trans (hwb _).1),
     (hnlm _).2.trans ((hbil _).2.trans (hwb _).2)⟩, ?_, ?_⟩
  · intro hle out hout
    rw [enhance_low_light, lowLightResize, if_pos hle] at hout
    simp only [Option.map_some', Option.some_inj] at hout
    rw [← hout]
    exact lowLightCore_dims wb clahe gauss hwb hcl img
  · intro hgt
    have hcond : ¬ (max img.h img.w ≤ 1500) := not_le.2 hgt
    constructor
    · constructor
      · intro hnone
        rw [enhance_low_light, lowLightResize, if_neg hcond] at hnone
        dsimp only at hnone
        by_cases hz : img.h * 1500 / max img.h img.w = 0 ∨
            img.w * 1500 / max img.h img.w = 0
        · exact hz
        · rw [if_neg hz] at hnone
          simp at hnone
      · intro hz
        rw [enhance_low_light, lowLightResize, if_neg hcond]
        dsimp only
        rw [if_pos hz]
        rfl
    · intro out hout
      rw [enhance_low_light, lowLightResize, if_neg hcond] at hout
      dsimp only at hout
      by_cases hz : img.h * 1500 / max img.h img.w = 0 ∨
          img.w * 1500 / max img.h img.w = 0
      · rw [if_pos hz] at hout
        simp at hout
      · rw [if_neg hz] at hout
        simp only [Option.map_some', Option.some_inj] at hout
        have hdims := lowLightCore_dims wb clahe gauss hwb hcl
          ⟨img.h * 1500 / max img.h img.w, img.w * 1500 / max img.h img.w,
            rz img (img.h * 1500 / max img.h img.w) (img.w * 1500 / max img.h img.w)⟩
        rw [← hout]
        refine ⟨hdims.1, hdims.2, ?_⟩
        rw [hdims.1, hdims.2]
        exact resize_target_max img.h img.w hgt

/-- C1, as literally stated, fails: for a 1×2000 buffer the low-light
target height truncates to `int(1·1500/2000) = 0`, so `enhance_low_light`
faults and no buffer with larger dimension 1500 is returned. -/
theorem low_light_no_scaled_buffer :
    enhance_low_light rzPrim idPrim idPrim idPrim (constImg 1 2000 0) = none := by
  rw [enhance_low_light, lowLightResize,
    if_neg (by decide :
      ¬ (max (constImg 1 2000 0).h (constImg 1 2000 0).w ≤ 1500))]
  dsimp only
  rw [if_pos (Or.inl (by decide :
    (constImg 1 2000 0).h * 1500 /
      max (constImg 1 2000 0).h (constImg 1 2000 0).w = 0))]
  rfl

theorem output_dimensions_witness :
    (remove_fog idPrim idPrim idGF ∅ (constImg 2 3 5)).h = 2 ∧
    (remove_fog idPrim idPrim idGF ∅ (constImg 2 3 5)).w = 3 :=
  (output_dimensions rzPrim idPrim idPrim idPrim idPrim idPrim idGF ∅ (constImg 2 3 5)
    preservesDims_idPrim preservesDims_idPrim preservesDims_idPrim
    preservesDims_idPrim).1

end ZeroVis
